import Mathlib

/-!
Verification of the bigcsv streaming CSV processor (Go) against its
natural-language specification.

Shallow embedding notes:
* Go errors are modelled as `String` values (only their identity and the
  tag wrapping matter here).
* The three pluggable callbacks of `Parser[T]` (`OnRow`, `Parse`, `OnData`)
  are modelled as optional Lean functions; `OnError` is a sink, so we model
  only whether it is configured and collect the values that would be passed
  to it.
* `Parser.Run` and `Parser.processRow` (src/bigcsv.go) are embedded twice:
  - a sequential functional model (`BigCSV.run`) that records the ordered
    trace of reads, dispatches, reported errors and the final close, used
    for the functional / error-handling claims; and
  - a small-step nondeterministic model (`BigCSV.Step`) of the main loop,
    the semaphore channel, the worker goroutines and the reusable record
    buffer, used for the concurrency / temporal claims.  The Go `select`
    statement with two ready cases is a nondeterministic choice (the Go
    specification mandates uniform pseudo-random selection), which the step
    relation reflects by enabling both branches.
* `stream.go` (`FileStream.Open`, `ReadStream` / `readerAdapter.Open`) is
  embedded with explicit oracles for the results of `os.Open` and
  `gzip.NewReader`, recording open/close events on the file handle.
-/

namespace BigCSV

/-- Errors constructed by Run / processRow and passed to the OnError
callback, tagged the way src/bigcsv.go wraps them: read errors are wrapped
with the line ordinal; the callback errors are wrapped with the sentinel
errors ErrOnRow / ErrParse / ErrOnData plus the line ordinal. -/
inductive RunError where
  | readErr (line : Nat) (e : String)
  | onRowErr (line : Nat) (e : String)
  | parseErr (line : Nat) (e : String)
  | onDataErr (line : Nat) (e : String)
deriving DecidableEq, Repr

/-- Configuration slots of Parser[T] (src/bigcsv.go): the three optional
callbacks and whether the OnError callback is configured.  OnRow returns an
optional error; Parse returns the typed row or an error; OnData returns an
optional error. -/
structure Config (T : Type) where
  onRow : Option (List String → Option String)
  parse : Option (List String → Except String T)
  onData : Option (T → Option String)
  onErrorSet : Bool

/-- One result of a csv.Reader.Read call that is not io.EOF: either a row
(an ordered field sequence) or a read error.  An input to the run loop is a
list of these; io.EOF is returned once the list is exhausted. -/
inductive ReadResult where
  | okRow (row : List String)
  | failRead (e : String)
deriving DecidableEq, Repr

/-- Observable events of one worker body (Parser.processRow): which of the
configured callbacks it invokes, and the error values it passes to OnError. -/
inductive WorkerEv where
  | callOnRow
  | callParse
  | callOnData
  | report (e : RunError)
deriving DecidableEq, Repr

/-- The Parse / OnData tail of Parser.processRow (src/bigcsv.go lines
133-153): bail early when Parse is nil; otherwise run Parse, reporting a
failure tagged ErrParse; otherwise run OnData when configured, reporting a
failure tagged ErrOnData.  Reports reach OnError only when it is configured. -/
def processRowParse {T : Type} (cfg : Config T) (ix : Nat) (row : List String) :
    List WorkerEv :=
  match cfg.parse with
  | none => []
  | some pf =>
    WorkerEv.callParse ::
      match pf row with
      | .error e => if cfg.onErrorSet then [.report (.parseErr ix e)] else []
      | .ok d =>
        match cfg.onData with
        | none => []
        | some h =>
          WorkerEv.callOnData ::
            match h d with
            | some e => if cfg.onErrorSet then [.report (.onDataErr ix e)] else []
            | none => []

/-- Parser.processRow (src/bigcsv.go lines 115-154), as the ordered list of
callback invocations and OnError reports for one row: run OnRow when
configured, reporting a failure tagged ErrOnRow and stopping; otherwise
continue with the Parse / OnData tail. -/
def processRow {T : Type} (cfg : Config T) (ix : Nat) (row : List String) :
    List WorkerEv :=
  match cfg.onRow with
  | none => processRowParse cfg ix row
  | some f =>
    WorkerEv.callOnRow ::
      match f row with
      | some e =>
        if cfg.onErrorSet then [.report (.onRowErr ix e)] else []
      | none => processRowParse cfg ix row

/-- The error values a list of worker events passes to OnError. -/
def reportsOf (evs : List WorkerEv) : List RunError :=
  evs.filterMap fun ev =>
    match ev with
    | .report e => some e
    | _ => none

/-- Observable events of one Run invocation (sequential collapse): a Read
call that yielded a record or a read error (with the ordinal the loop
attaches to it), the Read call that returned io.EOF, the dispatch of a
worker goroutine, an error value passed to OnError, and the deferred close
of the stream handle obtained at construction. -/
inductive RunEv where
  | read (ix : Nat)
  | readEOF (ix : Nat)
  | dispatch (ix : Nat) (row : List String)
  | report (e : RunError)
  | close (handle : Nat)
deriving DecidableEq, Repr

/-- Lift a worker event to a run event; only its OnError reports are
observable at the run level. -/
def workerReportEv (ev : WorkerEv) : Option RunEv :=
  match ev with
  | .report e => some (RunEv.report e)
  | _ => none

/-- The main loop of Parser.Run (src/bigcsv.go lines 88-109), sequential
collapse without cancellation: starting at ordinal ix, read each pending
result; a row is dispatched to a worker (whose reports follow); a read
error is reported wrapped with the ordinal when OnError is configured; the
exhausted input is one further Read returning io.EOF, which breaks the
loop. -/
def runLoop {T : Type} (cfg : Config T) (ix : Nat) (input : List ReadResult) :
    List RunEv :=
  match input with
  | [] => [RunEv.readEOF ix]
  | .okRow row :: rest =>
    RunEv.read ix :: RunEv.dispatch ix row ::
      ((processRow cfg ix row).filterMap workerReportEv ++ runLoop cfg (ix + 1) rest)
  | .failRead e :: rest =>
    RunEv.read ix ::
      ((if cfg.onErrorSet then [RunEv.report (.readErr ix e)] else []) ++
        runLoop cfg (ix + 1) rest)

/-- The configuration precondition checked at the top of Parser.Run:
OnData configured without Parse. -/
def badConfig {T : Type} (cfg : Config T) : Bool :=
  cfg.onData.isSome && cfg.parse.isNone

/-- Outcome of one Run invocation: its return value (some msg for a fatal
error, none for nil), the value assigned to Reader.ReuseRecord (none when
Run returned before the assignment), and the ordered event trace. -/
structure RunOutcome where
  result : Option String
  reuseRecord : Option Bool
  events : List RunEv
deriving DecidableEq, Repr

/-- Parser.Run (src/bigcsv.go lines 73-112), sequential collapse: the
stream close is deferred first, so it fires on every exit path; then the
two configuration preconditions are checked (OnData without Parse; workers
< 1), each returning an error with only the close performed; otherwise
Reader.ReuseRecord is assigned (workers == 1), the main loop runs to
io.EOF, and Run returns nil after all workers drain.  The closer argument
is the handle of the stream obtained by New at construction. -/
def run {T : Type} (cfg : Config T) (closer : Nat) (workers : Int)
    (input : List ReadResult) : RunOutcome :=
  if badConfig cfg then
    { result := some "cannot call OnData without Parse"
      reuseRecord := none
      events := [RunEv.close closer] }
  else if workers < 1 then
    { result := some ("invalid number of workers: " ++ toString workers)
      reuseRecord := none
      events := [RunEv.close closer] }
  else
    { result := none
      reuseRecord := some (workers == 1)
      events := runLoop cfg 1 input ++ [RunEv.close closer] }

/-- New (src/bigcsv.go lines 56-68): opens the stream; failure propagates
wrapped; success returns a parser bound to the open stream handle, which
Run later closes. -/
def new (openRes : Except String Nat) : Except String Nat :=
  match openRes with
  | .error e => .error ("could not open stream: " ++ e)
  | .ok r => .ok r

/-- Program counter of the main goroutine inside the loop of Parser.Run
(src/bigcsv.go lines 88-112): at the top of an iteration (at the select);
holding a freshly acquired slot and inside Reader.Read; holding the row a
Read just returned, about to dispatch; holding the knowledge that Read
failed, about to release the slot and continue; past the loop at wg.Wait;
returned. -/
inductive LoopPC where
  | atSelect
  | reading
  | gotRow (row : List String)
  | gotReadErr
  | waiting
  | returned
deriving DecidableEq, Repr

/-- State of one Run invocation after the preconditions passed: the worker
count (capacity of the sem channel), the main goroutine position, the next
ordinal, the unread input, the number of held slots, the dispatched workers
that have not yet exited (ordinal and the row value handed to them), the
csv.Reader record buffer (meaningful in ReuseRecord mode, where every
dispatched row slice aliases it), and whether ctx is done. -/
structure EngState where
  workersCap : Nat
  pc : LoopPC
  ixRow : Nat
  pending : List ReadResult
  sem : Nat
  inflight : List (Nat × List String)
  buffer : List String
  cancelled : Bool
deriving DecidableEq, Repr

/-- Small-step relation of the run loop, the sem channel and the worker
goroutines (src/bigcsv.go lines 85-119).  The select at the loop top
enables the ctx.Done branch whenever ctx is done and the sem-send branch
whenever a slot is free; when both are enabled the choice is
nondeterministic, as the Go specification prescribes for select.  A Read in
ReuseRecord mode overwrites the shared record buffer (also, conservatively,
on a failed Read).  A worker exit releases its slot unconditionally, on
every exit path, via the deferred receive in processRow.  External code may
cancel the context at any time. -/
inductive Step : EngState → EngState → Prop where
  | cancel (s : EngState) :
      Step s { s with cancelled := true }
  | selectDone (s : EngState) :
      s.pc = .atSelect → s.cancelled = true →
      Step s { s with pc := .waiting }
  | selectSem (s : EngState) :
      s.pc = .atSelect → s.sem < s.workersCap →
      Step s { s with pc := .reading, sem := s.sem + 1 }
  | readEOF (s : EngState) :
      s.pc = .reading → s.pending = [] →
      Step s { s with pc := .waiting }
  | readRow (s : EngState) (row : List String) (rest : List ReadResult) :
      s.pc = .reading → s.pending = .okRow row :: rest →
      Step s { s with pc := .gotRow row, pending := rest, buffer := row }
  | readFail (s : EngState) (e : String) (rest : List ReadResult)
      (junk : List String) :
      s.pc = .reading → s.pending = .failRead e :: rest →
      Step s { s with pc := .gotReadErr, pending := rest, buffer := junk }
  | dispatch (s : EngState) (row : List String) :
      s.pc = .gotRow row →
      Step s { s with pc := .atSelect, ixRow := s.ixRow + 1,
                      inflight := (s.ixRow, row) :: s.inflight }
  | readErrContinue (s : EngState) :
      s.pc = .gotReadErr →
      Step s { s with pc := .atSelect, ixRow := s.ixRow + 1, sem := s.sem - 1 }
  | workerExit (s : EngState) (w : Nat × List String)
      (pre post : List (Nat × List String)) :
      s.inflight = pre ++ w :: post →
      Step s { s with inflight := pre ++ post, sem := s.sem - 1 }
  | finish (s : EngState) :
      s.pc = .waiting → s.inflight = [] →
      Step s { s with pc := .returned }

/-- Initial loop state of a Run invocation whose preconditions passed:
ordinal 1, no slot held, no worker in flight; preCancelled records whether
ctx was already done when Run was invoked. -/
def initState (workers : Nat) (input : List ReadResult) (preCancelled : Bool) :
    EngState :=
  { workersCap := workers
    pc := .atSelect
    ixRow := 1
    pending := input
    sem := 0
    inflight := []
    buffer := []
    cancelled := preCancelled }

/-- Reachability along the step relation. -/
def Reaches (s t : EngState) : Prop :=
  Relation.ReflTransGen Step s t

/-- Number of slots the main goroutine itself holds: one between winning
the sem-send and either dispatching (slot handed to the worker) or
releasing after a failed read. -/
def loopHolds (pc : LoopPC) : Nat :=
  match pc with
  | .reading => 1
  | .gotRow _ => 1
  | .gotReadErr => 1
  | _ => 0

/-- Inductive invariant of the run loop: slots track in-flight workers plus
the one the main goroutine may hold; the sem channel never exceeds its
capacity; the row held at pc = gotRow is exactly the buffer the Read just
filled; and in single-worker (ReuseRecord) mode every in-flight worker's
row still equals the shared buffer. -/
structure Inv (s : EngState) : Prop where
  slots : s.inflight.length + loopHolds s.pc ≤ s.sem
  cap : s.sem ≤ s.workersCap
  bufRow : ∀ row, s.pc = .gotRow row → s.buffer = row
  reuse : s.workersCap = 1 → ∀ w ∈ s.inflight, w.2 = s.buffer

/-- The invariant holds in the initial loop state. -/
theorem inv_init (workers : Nat) (input : List ReadResult) (pre : Bool) :
    Inv (initState workers input pre) := by
  refine ⟨?_, ?_, ?_, ?_⟩
  · simp [initState, loopHolds]
  · simp [initState]
  · intro row hrow
    simp [initState] at hrow
  · intro _ w hw
    simp [initState] at hw

/-- Every step of the run loop preserves the invariant. -/
theorem inv_step {s t : EngState} (h : Step s t) (hs : Inv s) : Inv t := by
  cases h with
  | cancel =>
    exact ⟨hs.slots, hs.cap, hs.bufRow, hs.reuse⟩
  | selectDone hpc hc =>
    refine ⟨?_, hs.cap, ?_, hs.reuse⟩
    · have h1 := hs.slots
      rw [hpc] at h1
      simp only [loopHolds] at h1 ⊢
      omega
    · intro row hrow
      simp at hrow
  | selectSem hpc hlt =>
    refine ⟨?_, ?_, ?_, hs.reuse⟩
    · have h1 := hs.slots
      rw [hpc] at h1
      simp only [loopHolds] at h1 ⊢
      omega
    · simp only []
      omega
    · intro row hrow
      simp at hrow
  | readEOF hpc hp =>
    refine ⟨?_, hs.cap, ?_, hs.reuse⟩
    · have h1 := hs.slots
      rw [hpc] at h1
      simp only [loopHolds] at h1 ⊢
      omega
    · intro row hrow
      simp at hrow
  | readRow row rest hpc hp =>
    refine ⟨?_, hs.cap, ?_, ?_⟩
    · have h1 := hs.slots
      rw [hpc] at h1
      simp only [loopHolds] at h1 ⊢
      omega
    · intro r hr
      simp only [LoopPC.gotRow.injEq] at hr
      simp [hr]
    · intro hW w hw
      exfalso
      have h1 := hs.slots
      have h2 := hs.cap
      rw [hpc] at h1
      simp only [loopHolds] at h1
      have hW2 : s.workersCap = 1 := hW
      have hlen : s.inflight.length = 0 := by omega
      have hnil : s.inflight = [] := List.length_eq_zero.mp hlen
      have hw2 : w ∈ s.inflight := hw
      rw [hnil] at hw2
      simp at hw2
  | readFail e rest junk hpc hp =>
    refine ⟨?_, hs.cap, ?_, ?_⟩
    · have h1 := hs.slots
      rw [hpc] at h1
      simp only [loopHolds] at h1 ⊢
      omega
    · intro r hr
      simp at hr
    · intro hW w hw
      exfalso
      have h1 := hs.slots
      have h2 := hs.cap
      rw [hpc] at h1
      simp only [loopHolds] at h1
      have hW2 : s.workersCap = 1 := hW
      have hlen : s.inflight.length = 0 := by omega
      have hnil : s.inflight = [] := List.length_eq_zero.mp hlen
      have hw2 : w ∈ s.inflight := hw
      rw [hnil] at hw2
      simp at hw2
  | dispatch row hpc =>
    refine ⟨?_, hs.cap, ?_, ?_⟩
    · have h1 := hs.slots
      rw [hpc] at h1
      simp only [loopHolds, List.length_cons] at h1 ⊢
      omega
    · intro r hr
      simp at hr
    · intro hW w hw
      simp only [List.mem_cons] at hw
      rcases hw with hw | hw
      · rw [hw]
        exact (hs.bufRow row hpc).symm
      · exact hs.reuse hW w hw
  | readErrContinue hpc =>
    refine ⟨?_, ?_, ?_, hs.reuse⟩
    · have h1 := hs.slots
      rw [hpc] at h1
      simp only [loopHolds] at h1 ⊢
      omega
    · have h2 := hs.cap
      simp only []
      omega
    · intro r hr
      simp at hr
  | workerExit w pre post hin =>
    refine ⟨?_, ?_, hs.bufRow, ?_⟩
    · have h1 := hs.slots
      rw [hin] at h1
      simp only [List.length_append, List.length_cons] at h1 ⊢
      omega
    · have h2 := hs.cap
      simp only []
      omega
    · intro hW v hv
      refine hs.reuse hW v ?_
      rw [hin]
      simp only [List.mem_append, List.mem_cons] at hv ⊢
      tauto
  | finish hpc hin =>
    refine ⟨?_, hs.cap, ?_, hs.reuse⟩
    · have h1 := hs.slots
      rw [hpc] at h1
      simp only [loopHolds] at h1 ⊢
      omega
    · intro r hr
      simp at hr

/-- The invariant holds in every reachable state. -/
theorem inv_reaches {s t : EngState} (h : Reaches s t) (hs : Inv s) : Inv t := by
  induction h with
  | refl => exact hs
  | tail _ hbc ih => exact inv_step hbc ih

/-- Go filepath.Ext, scanning the path backwards: stop at the first path
separator; the extension is the suffix from the final dot of the final
element, empty when there is none.  The first argument is the reversed
character list still to scan, the second the characters already passed (in
forward order). -/
def goExt : List Char → List Char → List Char
  | [], _ => []
  | c :: rest, acc =>
    if c = '/' then []
    else if c = '.' then c :: acc
    else goExt rest (c :: acc)

/-- Go filepath.Ext over a Lean string. -/
def filepathExt (p : String) : String :=
  String.mk (goExt p.data.reverse [])

/-- Go strings.ToLower, restricted to the ASCII range relevant to the gz
suffix test (Char.toLower lowers ASCII letters and fixes everything else). -/
def strToLower (s : String) : String :=
  String.mk (s.data.map Char.toLower)

/-- External-world oracle for FileStream.Open: the result of os.Open on the
path (a file handle or an error) and the result of gzip.NewReader on that
open file. -/
structure FsWorld where
  openRes : Except String Nat
  gzipRes : Except String Nat
deriving Repr

/-- File-handle events performed by FileStream.Open. -/
inductive FsEv where
  | openedFile (h : Nat)
  | closedFile (h : Nat)
deriving DecidableEq, Repr

/-- The io.ReadCloser a successful FileStream.Open returns: the plain file,
or the gzip reader over the file. -/
inductive OpenedStream where
  | plainFile (h : Nat)
  | gzipFile (gz : Nat) (h : Nat)
deriving DecidableEq, Repr

/-- FileStream.Open (src/stream.go lines 47-67): open the path (failure is
returned wrapped, nothing opened); when the lower-cased filepath.Ext is
exactly .gz, initialize a gzip reader over the file — on failure close the
already-opened file and return the wrapped error, on success return the
gzip reader; otherwise return the plain file.  The event list records the
file-handle opens and closes performed during the call. -/
def fileStreamOpen (p : String) (w : FsWorld) :
    Except String OpenedStream × List FsEv :=
  match w.openRes with
  | .error e => (.error ("could open file " ++ p ++ ": " ++ e), [])
  | .ok h =>
    if strToLower (filepathExt p) = ".gz" then
      match w.gzipRes with
      | .error e =>
        (.error ("gzip failed for " ++ p ++ ": " ++ e),
          [FsEv.openedFile h, FsEv.closedFile h])
      | .ok gz => (.ok (.gzipFile gz h), [FsEv.openedFile h])
    else (.ok (.plainFile h), [FsEv.openedFile h])

/-- A Go io.Reader handed to ReadStream: either it also implements
io.Closer or it does not. -/
inductive GoReader where
  | withClose (id : Nat)
  | noClose (id : Nat)
deriving DecidableEq, Repr

/-- The io.ReadCloser produced by readerAdapter.Open: the reader itself
(when it already is an io.ReadCloser) or the reader wrapped by
io.NopCloser. -/
inductive ByteStream where
  | same (r : GoReader)
  | nopWrapped (r : GoReader)
deriving DecidableEq, Repr

/-- ReadStream / readerAdapter.Open (src/stream.go lines 140-154): the type
assertion to io.ReadCloser succeeds exactly when the reader supports close,
in which case the reader is returned unchanged; otherwise it is returned
wrapped by io.NopCloser.  Both branches return a nil error. -/
def readStreamOpen (r : GoReader) : Except String ByteStream :=
  match r with
  | .withClose i => .ok (.same (.withClose i))
  | .noClose i => .ok (.nopWrapped (.noClose i))

/-- Fixture: a fully configured parser over T = Nat used by the witnesses
(OnRow rejects the empty row, Parse maps a row to the length of its first
field or fails on an empty row, OnData rejects the value 0, OnError
configured). -/
def cfgFull : Config Nat where
  onRow := some (fun r => if r = [] then some "empty row" else none)
  parse := some (fun r =>
    match r with
    | [] => .error "nothing to parse"
    | s :: _ => .ok s.length)
  onData := some (fun n => if n == 0 then some "zero" else none)
  onErrorSet := true

/-- Fixture: a raw-rows-only configuration (no callbacks at all). -/
def cfgRaw : Config Nat where
  onRow := none
  parse := none
  onData := none
  onErrorSet := false

/-- Fixture: the forbidden configuration — OnData without Parse. -/
def cfgBad : Config Nat where
  onRow := none
  parse := none
  onData := some (fun _ => none)
  onErrorSet := false

/-- Ordinals attached to the Read calls that yielded a record or a read
error, in trace order. -/
def readOrds (evs : List RunEv) : List Nat :=
  evs.filterMap fun ev =>
    match ev with
    | .read ix => some ix
    | _ => none

/-- The run events contributed by one worker are exactly its OnError
reports. -/
theorem workerReportEv_eq_reports (l : List WorkerEv) :
    l.filterMap workerReportEv = (reportsOf l).map RunEv.report := by
  induction l with
  | nil => rfl
  | cons hd tl ih =>
    cases hd <;> simp [workerReportEv, reportsOf, List.filterMap_cons, ih]

/-- Worker reports contribute no read ordinals. -/
theorem readOrds_workerReports (l : List WorkerEv) :
    readOrds (l.filterMap workerReportEv) = [] := by
  rw [workerReportEv_eq_reports]
  induction reportsOf l with
  | nil => rfl
  | cons hd tl _ => simp [readOrds, List.filterMap_cons]

/-- Worker reports never contain a close event. -/
theorem close_not_in_workerReports (l : List WorkerEv) (c : Nat) :
    RunEv.close c ∉ l.filterMap workerReportEv := by
  rw [workerReportEv_eq_reports]
  simp

/-- The main loop emits read ordinals exactly ix, ix+1, ..., one per input
element, whatever the configuration and whether each element is a row or a
read error. -/
theorem runLoop_readOrds {T : Type} (cfg : Config T) (input : List ReadResult) :
    ∀ ix : Nat, readOrds (runLoop cfg ix input) = List.range' ix input.length := by
  induction input with
  | nil => intro ix; simp [runLoop, readOrds]
  | cons hd tl ih =>
    intro ix
    cases hd with
    | okRow row =>
      simp only [runLoop, readOrds, List.filterMap_cons, List.filterMap_append,
        List.length_cons]
      rw [List.range'_succ]
      have h1 := readOrds_workerReports (processRow cfg ix row)
      have h2 := ih (ix + 1)
      simp only [readOrds] at h1 h2
      simp [h1, h2]
    | failRead e =>
      simp only [runLoop, readOrds, List.filterMap_cons, List.filterMap_append,
        List.length_cons]
      rw [List.range'_succ]
      have h2 := ih (ix + 1)
      simp only [readOrds] at h2
      by_cases hE : cfg.onErrorSet <;> simp [hE, h2]

/-- The main loop never closes the stream; the close is the deferred one in
Run. -/
theorem close_not_in_runLoop {T : Type} (cfg : Config T) (input : List ReadResult)
    (c : Nat) : ∀ ix : Nat, RunEv.close c ∉ runLoop cfg ix input := by
  induction input with
  | nil => intro ix; simp [runLoop]
  | cons hd tl ih =>
    intro ix
    cases hd with
    | okRow row =>
      simp only [runLoop, List.mem_cons, List.mem_append]
      push_neg
      refine ⟨by simp, by simp, ?_, ih (ix + 1)⟩
      exact close_not_in_workerReports (processRow cfg ix row) c
    | failRead e =>
      simp only [runLoop, List.mem_cons, List.mem_append]
      push_neg
      refine ⟨by simp, ?_, ih (ix + 1)⟩
      by_cases hE : cfg.onErrorSet <;> simp [hE]

/-- C1: Run returns an error exactly when a configuration precondition is
violated (OnData configured without Parse, or workers < 1); on that path
nothing but the deferred close happens — no read, no dispatch, no report;
for every other input Run returns nil, so per-row failures never surface as
the return value of Run. -/
theorem run_fatal_iff {T : Type} (cfg : Config T) (closer : Nat) (workers : Int)
    (input : List ReadResult) :
    ((run cfg closer workers input).result.isSome = true ↔
        (badConfig cfg = true ∨ workers < 1))
    ∧ ((run cfg closer workers input).result.isSome = true →
        (run cfg closer workers input).events = [RunEv.close closer])
    ∧ (badConfig cfg = false → 1 ≤ workers →
        (run cfg closer workers input).result = none) := by
  unfold run
  by_cases hb : badConfig cfg
  · simp [hb]
  · simp only [Bool.not_eq_true] at hb
    by_cases hw : workers < 1
    · simp [hb, hw]
    · simp [hb, hw]

/-- Witness for run_fatal_iff: the forbidden configuration (OnData without
Parse) makes Run fail having performed only the deferred close. -/
theorem run_fatal_iff_witness :
    (run cfgBad 0 (1 : Int) [ReadResult.okRow ["x"]]).events = [RunEv.close 0] :=
  (run_fatal_iff cfgBad 0 1 [ReadResult.okRow ["x"]]).2.1 (by rfl)

/-- C5: with a valid configuration, the ordinals attached to the successive
Read calls that yield a record or read error are exactly 1..N for an input
of N rows — 1-based, strictly increasing, no gaps, no repeats — for every
worker count, because the single sequential reader assigns them in read
order.  (The final Read returning io.EOF carries no row and reports no
ordinal.) -/
theorem run_read_ordinals {T : Type} (cfg : Config T) (closer : Nat)
    (workers : Int) (input : List ReadResult)
    (hcfg : badConfig cfg = false) (hw : 1 ≤ workers) :
    readOrds (run cfg closer workers input).events =
      List.range' 1 input.length := by
  unfold run
  simp only [hcfg, Bool.false_eq_true, if_false, show ¬(workers < 1) by omega,
    if_false]
  simp only [readOrds, List.filterMap_append]
  have h1 := runLoop_readOrds cfg input 1
  simp only [readOrds] at h1
  simp [h1]

/-- Witness for run_read_ordinals: a three-element input (row, read error,
row) yields read ordinals 1, 2, 3. -/
theorem run_read_ordinals_witness :
    readOrds (run cfgRaw 3 2
      [ReadResult.okRow ["a"], ReadResult.failRead "bad", ReadResult.okRow ["b"]]).events
      = [1, 2, 3] := by
  have h := run_read_ordinals cfgRaw 3 2
    [ReadResult.okRow ["a"], ReadResult.failRead "bad", ReadResult.okRow ["b"]]
    (by rfl) (by decide)
  simpa using h

/-- C7: once the preconditions pass, Run assigns Reader.ReuseRecord the
value (workers == 1): true exactly for a single worker, false for every
worker count of at least 2. -/
theorem run_reuse_record {T : Type} (cfg : Config T) (closer : Nat)
    (workers : Int) (input : List ReadResult)
    (hcfg : badConfig cfg = false) (hw : 1 ≤ workers) :
    ((run cfg closer workers input).reuseRecord = some true ↔ workers = 1)
    ∧ (2 ≤ workers →
        (run cfg closer workers input).reuseRecord = some false) := by
  unfold run
  simp only [hcfg, Bool.false_eq_true, if_false, show ¬(workers < 1) by omega,
    if_false]
  constructor
  · simp [beq_iff_eq]
  · intro h2
    simp only [Option.some.injEq]
    have : workers ≠ 1 := by omega
    simp [beq_eq_false_iff_ne, this]

/-- Witness for run_reuse_record: two workers disable record reuse. -/
theorem run_reuse_record_witness :
    (run cfgRaw 0 2 []).reuseRecord = some false :=
  (run_reuse_record cfgRaw 0 2 [] (by rfl) (by decide)).2 (by decide)

/-- C8: for a parser built by New over a successfully opened stream, every
Run invocation closes that stream exactly once, as its final action, on
every exit path (configuration error, empty input, rows, read errors
alike); nothing closes it earlier in the trace. -/
theorem run_closes_stream_once {T : Type} (openRes : Except String Nat)
    (closer : Nat) (_hnew : new openRes = .ok closer) (cfg : Config T)
    (workers : Int) (input : List ReadResult) :
    ((run cfg closer workers input).events.count (RunEv.close closer) = 1)
    ∧ ((run cfg closer workers input).events.getLast? =
        some (RunEv.close closer)) := by
  unfold run
  by_cases hb : badConfig cfg
  · simp [hb]
  · by_cases hw : workers < 1
    · simp [hb, hw]
    · simp only [hb, Bool.false_eq_true, if_false, hw]
      constructor
      · rw [List.count_append]
        have hni := close_not_in_runLoop cfg input closer 1
        simp [List.count_eq_zero_of_not_mem hni]
      · simp

/-- Witness for run_closes_stream_once: a parser built over stream handle 7
closes handle 7 exactly once and last. -/
theorem run_closes_stream_once_witness :
    ((run cfgRaw 7 1 [ReadResult.okRow ["x"]]).events.count (RunEv.close 7) = 1)
    ∧ ((run cfgRaw 7 1 [ReadResult.okRow ["x"]]).events.getLast? =
        some (RunEv.close 7)) :=
  run_closes_stream_once (.ok 7) 7 rfl cfgRaw 1 [ReadResult.okRow ["x"]]

/-- C6: the per-row worker pipeline.  With OnError configured: a failing
OnRow is reported tagged ErrOnRow with the ordinal and nothing further
runs; with OnRow passing (or absent), a nil Parse stops the worker
silently; a failing Parse is reported tagged ErrParse with the ordinal and
OnData never runs; a passing Parse with no OnData stops; a failing OnData
is reported tagged ErrOnData with the ordinal.  Each failing step is
reported exactly once, and every worker reports at most one error. -/
theorem processRow_pipeline {T : Type} (cfg : Config T) (ix : Nat)
    (row : List String) (hE : cfg.onErrorSet = true) :
    (∀ f e, cfg.onRow = some f → f row = some e →
        processRow cfg ix row = [.callOnRow, .report (.onRowErr ix e)])
    ∧ (∀ f, cfg.onRow = some f → f row = none →
        processRow cfg ix row = WorkerEv.callOnRow :: processRowParse cfg ix row)
    ∧ (cfg.onRow = none →
        processRow cfg ix row = processRowParse cfg ix row)
    ∧ (cfg.parse = none → processRowParse cfg ix row = [])
    ∧ (∀ pf e, cfg.parse = some pf → pf row = .error e →
        processRowParse cfg ix row = [.callParse, .report (.parseErr ix e)])
    ∧ (∀ pf d, cfg.parse = some pf → pf row = .ok d → cfg.onData = none →
        processRowParse cfg ix row = [.callParse])
    ∧ (∀ pf d h, cfg.parse = some pf → pf row = .ok d → cfg.onData = some h →
        h d = none → processRowParse cfg ix row = [.callParse, .callOnData])
    ∧ (∀ pf d h e, cfg.parse = some pf → pf row = .ok d → cfg.onData = some h →
        h d = some e →
        processRowParse cfg ix row =
          [.callParse, .callOnData, .report (.onDataErr ix e)])
    ∧ (reportsOf (processRow cfg ix row)).length ≤ 1 := by
  refine ⟨?_, ?_, ?_, ?_, ?_, ?_, ?_, ?_, ?_⟩
  · intro f e hf hfe
    simp [processRow, hf, hfe, hE]
  · intro f hf hfe
    simp [processRow, hf, hfe]
  · intro hf
    simp [processRow, hf]
  · intro hp
    simp [processRowParse, hp]
  · intro pf e hp hpe
    simp [processRowParse, hp, hpe, hE]
  · intro pf d hp hpd hd
    simp [processRowParse, hp, hpd, hd]
  · intro pf d h hp hpd hd hdn
    simp [processRowParse, hp, hpd, hd, hdn]
  · intro pf d h e hp hpd hd hde
    simp [processRowParse, hp, hpd, hd, hde, hE]
  · unfold processRow processRowParse reportsOf
    repeat' split
    all_goals simp [List.filterMap_cons]

/-- Witness for processRow_pipeline: on the fully configured fixture, an
empty row fails the OnRow hook at line 5, producing exactly the tagged
report and stopping before Parse. -/
theorem processRow_pipeline_witness :
    processRow cfgFull 5 [] =
      [.callOnRow, .report (.onRowErr 5 "empty row")] :=
  (processRow_pipeline cfgFull 5 [] rfl).1
    (fun r => if r = [] then some "empty row" else none) "empty row" rfl (by simp)

/-- C9: readerAdapter.Open never fails: for every reader it returns a nil
error together with the reader itself when it already supports close, and
the reader wrapped by the no-op closer otherwise, so engine construction
over a ReadStream cannot fail at the open step. -/
theorem readStream_open_total (r : GoReader) :
    (∃ s, readStreamOpen r = .ok s)
    ∧ (∀ i, r = .withClose i → readStreamOpen r = .ok (.same r))
    ∧ (∀ i, r = .noClose i → readStreamOpen r = .ok (.nopWrapped r)) := by
  cases r <;> simp [readStreamOpen]

/-- Witness for readStream_open_total: a close-capable reader is returned
unchanged with a nil error. -/
theorem readStream_open_total_witness :
    readStreamOpen (.withClose 0) = .ok (.same (.withClose 0)) :=
  (readStream_open_total (.withClose 0)).2.1 0 rfl

/-- C10: for a path whose lower-cased extension is .gz, when the file opens
but gzip initialization fails, FileStream.Open closes the freshly opened
file before returning the error: the event trace is exactly one open of the
handle followed by one close of that same handle, so no open handle is
retained on the failure path. -/
theorem fileStream_gzip_fail_closes (p : String) (w : FsWorld) (h : Nat)
    (e : String) (hgz : strToLower (filepathExt p) = ".gz")
    (hopen : w.openRes = .ok h) (hfail : w.gzipRes = .error e) :
    (∃ msg, (fileStreamOpen p w).1 = .error msg)
    ∧ (fileStreamOpen p w).2 = [FsEv.openedFile h, FsEv.closedFile h] := by
  unfold fileStreamOpen
  rw [hopen]
  simp [hgz, hfail]

/-- Witness for fileStream_gzip_fail_closes: opening data.GZ succeeds with
handle 5, gzip fails, and the trace opens then closes handle 5. -/
theorem fileStream_gzip_fail_closes_witness :
    (fileStreamOpen "data.GZ" ⟨.ok 5, .error "not a gzip file"⟩).2 =
      [FsEv.openedFile 5, FsEv.closedFile 5] :=
  (fileStream_gzip_fail_closes "data.GZ" ⟨.ok 5, .error "not a gzip file"⟩ 5
    "not a gzip file" (by decide) rfl rfl).2

/-- No step changes the worker capacity. -/
theorem step_workersCap {s t : EngState} (h : Step s t) :
    t.workersCap = s.workersCap := by
  cases h <;> rfl

/-- The worker capacity is constant along every run. -/
theorem reaches_workersCap {s t : EngState} (h : Reaches s t) :
    t.workersCap = s.workersCap := by
  induction h with
  | refl => rfl
  | tail _ hbc ih => rw [step_workersCap hbc, ih]

/-- C4: slot bound invariant — in every state reachable during a run with
worker count W (W ≥ 1), at most W rows are simultaneously inside worker
processing; a slot is acquired at the select before each row is dispatched
and released unconditionally by the deferred receive when that row's worker
exits, on every exit path. -/
theorem slot_bound (workers : Nat) (input : List ReadResult) (pre : Bool)
    (s : EngState) (_hW : 1 ≤ workers)
    (h : Reaches (initState workers input pre) s) :
    s.inflight.length ≤ workers := by
  have hinv := inv_reaches h (inv_init workers input pre)
  have hcap : s.workersCap = workers := reaches_workersCap h
  have h1 := hinv.slots
  have h2 := hinv.cap
  omega

/-- Witness for slot_bound: the initial state of a one-worker run over an
empty input has no row in flight. -/
theorem slot_bound_witness :
    (initState 1 [] false).inflight.length ≤ 1 :=
  slot_bound 1 [] false (initState 1 [] false) (by decide)
    Relation.ReflTransGen.refl

/-- C3: reuse-race safety — in every state reachable during a run with
worker count 1 (the configuration in which Run enables Reader.ReuseRecord),
every in-flight worker's row still equals the shared record buffer, so a
worker that is still processing (for instance sleeping inside OnData)
observes unmodified field values; moreover whenever the main goroutine is
inside a Read, no worker is in flight at all — the slot acquisition blocks
the next buffer-overwriting read until the previous worker has released its
slot, not merely been dispatched. -/
theorem reuse_race_safety (input : List ReadResult) (pre : Bool)
    (s : EngState) (h : Reaches (initState 1 input pre) s) :
    (∀ w ∈ s.inflight, w.2 = s.buffer)
    ∧ (s.pc = .reading → s.inflight = []) := by
  have hinv := inv_reaches h (inv_init 1 input pre)
  have hcap : s.workersCap = 1 := reaches_workersCap h
  constructor
  · exact hinv.reuse hcap
  · intro hpc
    have h1 := hinv.slots
    have h2 := hinv.cap
    rw [hpc] at h1
    simp only [loopHolds] at h1
    have : s.inflight.length = 0 := by omega
    exact List.length_eq_zero.mp this

/-- Single-row schedule used by the reuse_race_safety witness: initial
state, slot acquired, row read into the buffer, worker dispatched. -/
def c3s0 : EngState := initState 1 [ReadResult.okRow ["x"]] false

/-- State after the select hands the loop a slot. -/
def c3s1 : EngState := { c3s0 with pc := .reading, sem := c3s0.sem + 1 }

/-- State after the Read fills the buffer with the row. -/
def c3s2 : EngState :=
  { c3s1 with pc := .gotRow ["x"], pending := [], buffer := ["x"] }

/-- State after the worker carrying ordinal 1 is dispatched. -/
def c3s3 : EngState :=
  { c3s2 with
      pc := .atSelect
      ixRow := c3s2.ixRow + 1
      inflight := (c3s2.ixRow, ["x"]) :: c3s2.inflight }

/-- The dispatch schedule is a valid run. -/
theorem c3_reaches : Reaches c3s0 c3s3 :=
  Relation.ReflTransGen.head (Step.selectSem c3s0 rfl (by decide))
    (Relation.ReflTransGen.head (Step.readRow c3s1 ["x"] [] rfl rfl)
      (Relation.ReflTransGen.head (Step.dispatch c3s2 ["x"] rfl)
        Relation.ReflTransGen.refl))

/-- Witness for reuse_race_safety: after dispatching row 1, the in-flight
worker's row equals the shared buffer. -/
theorem reuse_race_safety_witness :
    ((1 : Nat), ["x"]).2 = c3s3.buffer :=
  (reuse_race_safety [ReadResult.okRow ["x"]] false c3s3 c3_reaches).1
    (1, ["x"]) (by simp [c3s3, c3s2, c3s1, c3s0, initState])

/-- Schedule refuting the literal C2: the cancellation signal is set before
the run starts, yet the select (a nondeterministic choice between two ready
cases, per the Go specification) takes the sem branch. -/
def c2s0 : EngState := initState 1 [ReadResult.okRow ["x"]] true

/-- State after the select takes the sem branch despite ctx being done. -/
def c2s1 : EngState := { c2s0 with pc := .reading, sem := c2s0.sem + 1 }

/-- State after the Read consumes the row: one row has been read even
though cancellation was pre-set. -/
def c2s2 : EngState :=
  { c2s1 with pc := .gotRow ["x"], pending := [], buffer := ["x"] }

/-- Counterexample to C2 as stated: it is not the case that a pre-set
cancellation signal forces zero rows to be read — the select in the loop
does not give the ctx.Done branch priority, so there is a valid schedule of
a run starting with ctx already done in which a tokenizer read occurs
(pending input shrinks). -/
theorem cancel_preset_can_still_read :
    ¬ (∀ (input : List ReadResult) (s : EngState),
        Reaches (initState 1 input true) s → s.pending = input) := by
  intro hclaim
  have hreach : Reaches (initState 1 [ReadResult.okRow ["x"]] true) c2s2 :=
    Relation.ReflTransGen.head (Step.selectSem c2s0 rfl (by decide))
      (Relation.ReflTransGen.head (Step.readRow c2s1 ["x"] [] rfl rfl)
        Relation.ReflTransGen.refl)
  have h := hclaim [ReadResult.okRow ["x"]] c2s2 hreach
  simp [c2s2, c2s1, c2s0, initState] at h

/-- Once the loop has terminated (pc at wg.Wait or returned), no later step
reads input, and the loop position never re-enters the loop. -/
theorem loop_exit_no_reads {s t : EngState} (h : Reaches s t)
    (hpc : s.pc = .waiting ∨ s.pc = .returned) :
    t.pending = s.pending ∧ (t.pc = .waiting ∨ t.pc = .returned) := by
  induction h with
  | refl => exact ⟨rfl, hpc⟩
  | tail _ hbc ih =>
    rcases ih with ⟨hpend, hdisj⟩
    cases hbc <;> simp_all

/-- C2 amended: the cancellation signal is one of the two select
alternatives checked on each iteration — not a prioritized first check.
From the loop top, the only step that terminates the loop requires the
signal to be set, and once the loop has terminated it never performs
another tokenizer read; but with the signal pre-set the sem branch may
still win the select, so zero reads hold in some schedules, not all (see
the counterexample), while Run still returns nil after the workers drain. -/
theorem cancellation_observed_amended (s t : EngState) :
    (s.pc = .atSelect → Step s t → t.pc = .waiting → s.cancelled = true)
    ∧ (s.pc = .waiting → Reaches s t → t.pending = s.pending) := by
  constructor
  · intro hpc hstep hwait
    cases hstep <;> simp_all
  · intro hpc hreach
    exact (loop_exit_no_reads hreach (Or.inl hpc)).1

/-- Witness for cancellation_observed_amended: from the loop top with ctx
done, the step into the waiting state certifies the signal was set. -/
theorem cancellation_observed_amended_witness :
    (initState 1 [] true).cancelled = true :=
  (cancellation_observed_amended (initState 1 [] true)
      { initState 1 [] true with pc := .waiting }).1 rfl
    (Step.selectDone (initState 1 [] true) rfl rfl) rfl

end BigCSV
